import Mathlib

/-!
Verification of the vector-store core of the pgvector demo repository.

The repository's scripts issue SQL of the shape
  `SELECT content, 1 - (embedding <=> q) AS similarity FROM t ORDER BY embedding <=> q LIMIT 5`
(src/search.py, src/scripts/search.py), seed records through INSERT loops with
differing commit granularity (src/seed.py: one commit after the loop;
src/scripts/seed.py: one commit per record; src/scripts/generate_demo_embeddings.py:
one commit per 100-record batch), and compare two texts with the standard cosine
similarity (src/compare.py, src/scripts/compare.py).

Vectors are modelled as lists of reals; the pgvector operator `<=>` is cosine
distance, defined as one minus cosine similarity.  The SQL `ORDER BY ... LIMIT k`
result is modelled as a relation (`IsQueryResult`): any permutation of the table
that is sorted by the distance key, truncated to its first `k` rows, is an
admissible result — SQL imposes no order among rows whose sort keys are equal.
-/

namespace PgvectorDemo

/-- A stored row: serial id, text content, and embedding vector
(`documents` / `demo` / `docs` tables of the scripts). -/
structure Row where
  id : ℕ
  content : String
  embedding : List ℝ

/-- Dot product of two vectors, pairing componentwise. -/
def dot (a b : List ℝ) : ℝ := (List.zipWith (fun x y => x * y) a b).sum

/-- Euclidean norm of a vector. -/
noncomputable def norm2 (a : List ℝ) : ℝ := Real.sqrt (dot a a)

/-- Cosine similarity, the quantity computed by sklearn's
`cosine_similarity` call in src/compare.py line 10 and
src/scripts/compare.py line 14: dot product over the product of norms. -/
noncomputable def cosine_similarity (a b : List ℝ) : ℝ := dot a b / (norm2 a * norm2 b)

/-- The pgvector operator `<=>` used in the ORDER BY of src/search.py lines 11-16
and src/scripts/search.py lines 20-25: cosine distance, one minus cosine
similarity ("lower is closer"). -/
noncomputable def cosineDistance (a b : List ℝ) : ℝ := 1 - cosine_similarity a b

/-- Sort key of the SQL `ORDER BY embedding <=> q`: distance from a row's
embedding to the query vector. -/
noncomputable def distKey (q : List ℝ) (r : Row) : ℝ := cosineDistance r.embedding q

/-- The `1 - (embedding <=> q)` column that the SELECT of src/search.py
line 12 reports as `similarity`. -/
noncomputable def simCol (q : List ℝ) (r : Row) : ℝ := 1 - cosineDistance r.embedding q

/-- Admissible results of
`SELECT ... FROM table ORDER BY embedding <=> q LIMIT k`:
some permutation of the table rows that is sorted by the distance key,
cut to its first `k` rows.  SQL constrains only the sort key, so rows with
equal distance may appear in either order. -/
def IsQueryResult (table : List Row) (q : List ℝ) (k : ℕ) (res : List Row) : Prop :=
  ∃ perm : List Row, table.Perm perm ∧
    perm.Sorted (fun a b => distKey q a ≤ distKey q b) ∧ res = perm.take k

/-- The distance metrics of the Distance Engine: cosine, negative inner
product, Euclidean. -/
inductive Metric where
  | cosine
  | negInnerProduct
  | euclidean

/-- Modelled from the spec: the "maximum representable distance" the Distance
Engine returns on a zero-norm input.  The spec's float maximum has no
counterpart in the real-number model; the designated maximum used here is 2,
the least upper bound of cosine distance on nonzero vectors, standing in for
the float maximum. -/
def maxDistance : ℝ := 2

/-- Modelled from the spec: the Distance Engine's `score(a, b, metric)`.
The scoring code itself lives in external libraries (sklearn's
`cosine_similarity`, pgvector's operators), not under src/; the spec defines
cosine as `1 - dot/(‖a‖*‖b‖)` with a zero-norm guard returning the maximum
representable distance, negative inner product as `-dot(a,b)`, and Euclidean
as `sqrt(sum((a_i-b_i)^2))`. -/
noncomputable def score (m : Metric) (a b : List ℝ) : ℝ :=
  match m with
  | .cosine => if norm2 a = 0 ∨ norm2 b = 0 then maxDistance else cosineDistance a b
  | .negInnerProduct => -(dot a b)
  | .euclidean => Real.sqrt ((List.zipWith (fun x y => (x - y) * (x - y)) a b).sum)

/-- The score printed by the compare scripts (src/compare.py lines 9-10,
src/scripts/compare.py lines 13-14): encode both texts, then take the cosine
similarity of the two embeddings, first text's embedding first. -/
noncomputable def compareScore (enc : String → List ℝ) (t1 t2 : String) : ℝ :=
  cosine_similarity (enc t1) (enc t2)

/-- A database-session operation of the seeding scripts: an INSERT of a
record, or a `conn.commit()`. -/
inductive SeedOp (α : Type) where
  | ins (r : α)
  | commit

/-- Runs session operations over a state of (committed records, pending
uncommitted records): an INSERT appends to the pending list, a commit moves
all pending records into the committed list. -/
def runOps {α : Type} : List (SeedOp α) → List α × List α → List α × List α
  | [], st => st
  | .ins r :: ops, (c, p) => runOps ops (c, p ++ [r])
  | .commit :: ops, (c, p) => runOps ops (c ++ p, [])

/-- Records visible in the store after the process executes the first `n`
session operations and is then interrupted: only committed records survive,
pending ones are rolled back. -/
def visibleAfter {α : Type} (ops : List (SeedOp α)) (n : ℕ) : List α :=
  (runOps (ops.take n) ([], [])).1

/-- The session trace of src/seed.py lines 16-21: INSERT every record of the
batch, then a single `conn.commit()`. -/
def singleCommitTrace {α : Type} (batch : List α) : List (SeedOp α) :=
  batch.map .ins ++ [.commit]

/-- The session trace of src/scripts/seed.py lines 28-39: each record is
INSERTed and immediately committed. -/
def perRecordCommitTrace {α : Type} (batch : List α) : List (SeedOp α) :=
  batch.flatMap fun r => [.ins r, .commit]

/-- The session trace of src/scripts/generate_demo_embeddings.py lines
103-121: INSERT each 100-record batch, committing once per batch. -/
def perBatchCommitTrace {α : Type} (batches : List (List α)) : List (SeedOp α) :=
  batches.flatMap fun b => b.map .ins ++ [.commit]

/-- The texts a seeding session reads from stdin: both src/seed.py lines
10-14 and src/scripts/seed.py lines 28-31 loop on `input()` and `break` at
the first empty line, so the texts processed are the longest prefix of
non-empty input lines. -/
def collectTexts (inputs : List String) : List String :=
  inputs.takeWhile fun t => ¬ t.isEmpty

/-- The database operations of a src/seed.py session (lines 16-21): if any
texts were entered, INSERT each (content, embedding) pair then commit once;
otherwise touch the database not at all. -/
def seedOps (enc : String → List ℝ) (inputs : List String) : List (SeedOp (String × List ℝ)) :=
  let ts := collectTexts inputs
  if ts.isEmpty then [] else singleCommitTrace (ts.map fun t => (t, enc t))

/-- The final message of src/seed.py lines 21-23. -/
def seedMsg (inputs : List String) : String :=
  if (collectTexts inputs).isEmpty then "No texts entered"
  else "Added " ++ toString (collectTexts inputs).length ++ " documents"

/-- The database operations of a src/scripts/seed.py session (lines 28-40),
ignoring the schema-setup commit of line 21 which commits no new data: each
entered text is INSERTed and committed immediately. -/
def scriptsSeedOps (enc : String → List ℝ) (inputs : List String) :
    List (SeedOp (String × List ℝ)) :=
  perRecordCommitTrace ((collectTexts inputs).map fun t => (t, enc t))

/-- The final message of src/scripts/seed.py lines 42-45. -/
def scriptsSeedMsg (inputs : List String) : String :=
  if 0 < (collectTexts inputs).length then
    "\nTotal: " ++ toString (collectTexts inputs).length ++ " texts added"
  else "No texts entered"

/-- Modelled from the spec: the Store's record set together with the next
serial id.  The id assignment itself is performed by the external database's
serial sequence — only the DDL `id serial PRIMARY KEY`
(src/scripts/embed_demo.py line 12, src/scripts/seed.py lines 14-20) is in
src/ — so it is modelled from the spec's invariant: ids are assigned at
successful insertion, strictly increasing, and a failed insert makes no state
change and consumes no id. -/
structure StoreState where
  nextId : ℕ
  records : List (ℕ × String × List ℝ)

/-- Modelled from the spec: `insert(content, embedding)` validates the
dimension first; on success it appends the record under the next id and
advances the id counter, on failure it returns the state unchanged with no
id consumed. -/
def insertRec (D : ℕ) (st : StoreState) (c : String) (e : List ℝ) : StoreState × Option ℕ :=
  if e.length = D then
    (⟨st.nextId + 1, st.records ++ [(st.nextId, c, e)]⟩, some st.nextId)
  else (st, none)

/-- Runs a sequence of insert attempts, collecting the ids of the successful
ones in order. -/
def runInserts (D : ℕ) : StoreState → List (String × List ℝ) → StoreState × List ℕ
  | st, [] => (st, [])
  | st, (c, e) :: rest =>
    match insertRec D st c e with
    | (st1, some i) =>
      let out := runInserts D st1 rest
      (out.1, i :: out.2)
    | (st1, none) => runInserts D st1 rest

/-- Physical location class of a record's vector. -/
inductive Placement where
  | inlineRow
  | overflow

/-- Modelled from the spec: width in bytes of one serialized vector element
(float32, as in the `vector(384)` / `vector(1024)` columns). -/
def elementWidth : ℕ := 4

/-- Serialized byte size of an embedding: dimension times element width. -/
def serializedSize (emb : List ℚ) : ℕ := emb.length * elementWidth

/-- Modelled from the spec: the Placement Layer's `classify(embedding)` —
the TOAST decision itself is internal to the external database (the scripts
only note it, src/scripts/generate_demo_embeddings.py lines 91 and 140-146);
per the spec it returns Overflow exactly when the serialized size exceeds the
threshold. -/
def classify (thresholdBytes : ℕ) (emb : List ℚ) : Placement :=
  if thresholdBytes < serializedSize emb then .overflow else .inlineRow

/-- Handle to overflow bytes: segment index, element offset, element count. -/
structure SegmentHandle where
  seg : ℕ
  off : ℕ
  len : ℕ

/-- Modelled from the spec: overflow storage as a list of closed segments
plus the currently open segment. -/
structure PlacementState where
  closedSegs : List (List ℚ)
  openSeg : List ℚ

/-- Modelled from the spec: segment capacity, default 8 MiB. -/
def segmentCapacityBytes : ℕ := 8 * 1024 * 1024

/-- Modelled from the spec: `allocate` appends the vector to the open
segment, rolling to a fresh segment when the open one would exceed the
segment capacity. -/
def allocate (st : PlacementState) (v : List ℚ) : PlacementState × SegmentHandle :=
  if segmentCapacityBytes < serializedSize st.openSeg + serializedSize v then
    (⟨st.closedSegs ++ [st.openSeg], v⟩, ⟨st.closedSegs.length + 1, 0, v.length⟩)
  else
    (⟨st.closedSegs, st.openSeg ++ v⟩, ⟨st.closedSegs.length, st.openSeg.length, v.length⟩)

/-- All segments, closed ones first, the open one last. -/
def segsOf (st : PlacementState) : List (List ℚ) := st.closedSegs ++ [st.openSeg]

/-- Modelled from the spec: `retrieve(handle)` returns the raw vector
content at the handle's segment, offset and length. -/
def retrieve (st : PlacementState) (h : SegmentHandle) : List ℚ :=
  (((segsOf st).getD h.seg []).drop h.off).take h.len

/-- A record's embedding as physically placed: inline rows carry their
content directly, overflow rows carry a segment handle. -/
inductive PlacedEmbedding where
  | inlineBytes (v : List ℚ)
  | overflowRef (h : SegmentHandle)

/-- Modelled from the spec: place one embedding — classify it, store inline
or allocate overflow space. -/
def placeEmbedding (thresholdBytes : ℕ) (st : PlacementState) (v : List ℚ) :
    PlacementState × PlacedEmbedding :=
  match classify thresholdBytes v with
  | .inlineRow => (st, .inlineBytes v)
  | .overflow =>
    let out := allocate st v
    (out.1, .overflowRef out.2)

/-- Modelled from the spec: read back a placed embedding's content. -/
def fetchEmbedding (st : PlacementState) : PlacedEmbedding → List ℚ
  | .inlineBytes v => v
  | .overflowRef hd => retrieve st hd

/-- First of two rows with identical embeddings, for the tie-ordering
analysis of the search SQL. -/
def rowTie1 : Row := ⟨1, "tie one", [1, 0]⟩

/-- Second of two rows with identical embeddings, hence at the same distance
from every query as `rowTie1`. -/
def rowTie2 : Row := ⟨2, "tie two", [1, 0]⟩

/-- A lone row used to instantiate query-result theorems. -/
def rowSolo : Row := ⟨3, "solo", [0, 1]⟩

/-- A row whose embedding is the standard basis vector `[1,0,0]`. -/
def rowCat : Row := ⟨1, "cat", [1, 0, 0]⟩

/-- A duplicate of `rowCat`'s embedding under a different id, for the
self-query analysis. -/
def rowCatDup : Row := ⟨2, "cat duplicate", [1, 0, 0]⟩

/-- The dot product is symmetric. -/
lemma dot_comm (a b : List ℝ) : dot a b = dot b a := by
  unfold dot
  rw [List.zipWith_comm_of_comm _ (fun x y => mul_comm x y)]

/-- The dot product of a vector with itself is a sum of squares. -/
lemma dot_self_nonneg (v : List ℝ) : 0 ≤ dot v v := by
  unfold dot
  induction v with
  | nil => simp
  | cons x t ih =>
    simp only [List.zipWith_cons_cons, List.sum_cons]
    exact add_nonneg (mul_self_nonneg x) ih

/-- A vector of nonzero norm has nonzero self-dot-product. -/
lemma dot_self_ne_zero (v : List ℝ) (h : norm2 v ≠ 0) : dot v v ≠ 0 := by
  intro h0
  exact h (by rw [norm2, h0, Real.sqrt_zero])

/-- Cosine distance of a nonzero-norm vector to itself is zero. -/
lemma cosineDistance_self (v : List ℝ) (h : norm2 v ≠ 0) : cosineDistance v v = 0 := by
  unfold cosineDistance cosine_similarity
  rw [show norm2 v * norm2 v = dot v v by rw [norm2]; exact Real.mul_self_sqrt (dot_self_nonneg v)]
  rw [div_self (dot_self_ne_zero v h)]
  ring

/-- Claim C1: every admissible result of the search SQL
(`ORDER BY embedding <=> q LIMIT k`, src/search.py lines 11-16 and
src/scripts/search.py lines 20-25) is ordered by ascending distance to the
query, has length at most `k`, consists of the `k` smallest-distance records
(every returned row is at most as far as every omitted row), and is the empty
sequence — not an error — when the store holds zero records. -/
theorem c1_query_topk (table : List Row) (q : List ℝ) (k : ℕ) (res : List Row)
    (h : IsQueryResult table q k res) :
    res.Sorted (fun a b => distKey q a ≤ distKey q b) ∧
    res.length ≤ k ∧
    (∃ rest : List Row, table.Perm (res ++ rest) ∧
      ∀ r ∈ res, ∀ s ∈ rest, distKey q r ≤ distKey q s) ∧
    (table = [] → res = []) := by
  obtain ⟨perm, hperm, hsort, hres⟩ := h
  subst hres
  refine ⟨hsort.sublist (List.take_sublist k perm), List.length_take_le k perm, ?_, ?_⟩
  · refine ⟨perm.drop k, ?_, ?_⟩
    · rw [List.take_append_drop]
      exact hperm
    · have h2 := hsort
      rw [← List.take_append_drop k perm] at h2
      exact (List.pairwise_append.mp h2).2.2
  · intro htable
    subst htable
    rw [hperm.symm.eq_nil]
    simp

/-- Witness for C1 at the empty store: the query returns the empty sequence. -/
theorem c1_query_topk_witness :
    IsQueryResult [] [] 5 [] ∧
    (([] : List Row).Sorted (fun a b => distKey [] a ≤ distKey [] b) ∧
      ([] : List Row).length ≤ 5 ∧
      (∃ rest : List Row, ([] : List Row).Perm ([] ++ rest) ∧
        ∀ r ∈ ([] : List Row), ∀ s ∈ rest, distKey [] r ≤ distKey [] s) ∧
      (([] : List Row) = [] → ([] : List Row) = [])) := by
  have hq : IsQueryResult [] [] 5 [] := ⟨[], List.Perm.refl _, List.sorted_nil, rfl⟩
  exact ⟨hq, c1_query_topk [] [] 5 [] hq⟩

/-- Claim C4: the `similarity` column that the search SQL reports
(src/search.py line 12, src/scripts/search.py line 21) equals the cosine
similarity of the row's embedding with the query — i.e. one minus that
row's cosine distance — and a row list is sorted by ascending distance
exactly when it is sorted by descending reported similarity. -/
theorem c4_similarity_distance_duality (q : List ℝ) :
    (∀ r : Row, simCol q r = cosine_similarity r.embedding q) ∧
    ∀ res : List Row,
      res.Sorted (fun a b => distKey q a ≤ distKey q b) ↔
        res.Sorted (fun a b => simCol q b ≤ simCol q a) := by
  constructor
  · intro r
    unfold simCol cosineDistance
    ring
  · intro res
    constructor
    · intro h
      refine h.imp ?_
      intro a b hab
      unfold simCol
      unfold distKey at hab
      linarith
    · intro h
      refine h.imp ?_
      intro a b hab
      unfold simCol at hab
      unfold distKey
      linarith

/-- Claim C10: the similarity score of the compare scripts (src/compare.py
lines 9-10, src/scripts/compare.py lines 13-14) is symmetric in the two
input texts, for every encoder. -/
theorem c10_compare_symmetric (enc : String → List ℝ) (t1 t2 : String) :
    compareScore enc t1 t2 = compareScore enc t2 t1 := by
  unfold compareScore cosine_similarity
  rw [dot_comm, mul_comm]

/-- Running a block of INSERTs moves their records into the pending list. -/
lemma runOps_ins_block {α : Type} (l : List α) (rest : List (SeedOp α)) (c p : List α) :
    runOps (l.map .ins ++ rest) (c, p) = runOps rest (c, p ++ l) := by
  induction l generalizing p with
  | nil => simp
  | cons a t ih =>
    simp only [List.map_cons, List.cons_append, runOps, List.append_eq]
    rw [ih]
    simp

/-- Interrupting a per-record-commit session leaves exactly the records
committed so far: the visible set is always some prefix of the batch. -/
lemma perRecord_take_shape {α : Type} (batch : List α) :
    ∀ (m : ℕ) (c : List α),
      ∃ j, (runOps ((perRecordCommitTrace batch).take m) (c, [])).1 = c ++ batch.take j := by
  induction batch with
  | nil =>
    intro m c
    exact ⟨0, by simp [perRecordCommitTrace, runOps]⟩
  | cons r t ih =>
    intro m c
    match m with
    | 0 => exact ⟨0, by simp [runOps]⟩
    | 1 =>
      refine ⟨0, ?_⟩
      simp [perRecordCommitTrace, runOps]
    | (m + 2) =>
      obtain ⟨j, hj⟩ := ih m (c ++ [r])
      refine ⟨j + 1, ?_⟩
      have hT : perRecordCommitTrace (r :: t) =
          SeedOp.ins r :: SeedOp.commit :: perRecordCommitTrace t := by
        simp [perRecordCommitTrace]
      rw [hT, List.take_succ_cons, List.take_succ_cons]
      show (runOps (SeedOp.ins r :: SeedOp.commit :: (perRecordCommitTrace t).take m) (c, [])).1 =
        c ++ (r :: t).take (j + 1)
      simp only [runOps, List.nil_append, List.take_succ_cons]
      rw [hj]
      simp

/-- Claim C2 (amended): src/seed.py's batch insert (lines 16-21, all INSERTs
then one commit) is atomic — interrupting after any number of operations
leaves either no record of the batch visible or all of them; while
src/scripts/seed.py's per-record-commit loop (lines 28-40) guarantees only
that the visible records form a prefix of the batch, which may be proper and
non-empty. -/
theorem c2_batch_atomicity (α : Type) (batch : List α) (n m : ℕ) :
    (visibleAfter (singleCommitTrace batch) n = [] ∨
      visibleAfter (singleCommitTrace batch) n = batch) ∧
    ∃ j : ℕ, visibleAfter (perRecordCommitTrace batch) m = batch.take j := by
  constructor
  · by_cases h : n ≤ batch.length
    · left
      unfold visibleAfter singleCommitTrace
      rw [List.take_append_eq_append_take]
      have h0 : n - (batch.map (SeedOp.ins (α := α))).length = 0 := by
        simp [Nat.sub_eq_zero_of_le h]
      rw [h0]
      simp only [List.take_zero, List.append_nil]
      rw [← List.map_take]
      rw [show (batch.take n).map (SeedOp.ins (α := α)) =
        (batch.take n).map SeedOp.ins ++ [] by simp]
      rw [runOps_ins_block]
      rfl
    · right
      push_neg at h
      unfold visibleAfter singleCommitTrace
      rw [List.take_of_length_le (by simp; omega)]
      rw [runOps_ins_block]
      simp [runOps]
  · obtain ⟨j, hj⟩ := perRecord_take_shape batch m []
    refine ⟨j, ?_⟩
    unfold visibleAfter
    rw [hj]
    simp

/-- Counterexample for C2 as stated: under the per-record commits of
src/scripts/seed.py, interrupting a two-record batch after the first
record's commit leaves exactly that record visible — a proper non-empty
subset of the batch. -/
theorem c2_batch_atomicity_counterexample :
    ¬ ∀ (batch : List (String × List ℝ)) (n : ℕ),
        visibleAfter (perRecordCommitTrace batch) n = [] ∨
        visibleAfter (perRecordCommitTrace batch) n = batch := by
  intro h
  have hv : visibleAfter (perRecordCommitTrace [("a", ([] : List ℝ)), ("b", [])]) 2 =
      [("a", ([] : List ℝ))] := rfl
  rcases h [("a", []), ("b", [])] 2 with h1 | h1 <;> rw [hv] at h1 <;> simp at h1

/-- Claim C9: when the very first input line of a seeding session is empty,
both src/seed.py (lines 9-23) and src/scripts/seed.py (lines 26-45) execute
no INSERT and commit no new data, the visible record set is exactly
unchanged, and the program reports that no texts were entered. -/
theorem c9_empty_input_noop (enc : String → List ℝ) (inputs : List String)
    (store : List (String × List ℝ))
    (h : inputs.head? = some "") :
    seedOps enc inputs = [] ∧
    scriptsSeedOps enc inputs = [] ∧
    (runOps (seedOps enc inputs) (store, [])).1 = store ∧
    (runOps (scriptsSeedOps enc inputs) (store, [])).1 = store ∧
    seedMsg inputs = "No texts entered" ∧
    scriptsSeedMsg inputs = "No texts entered" := by
  match inputs with
  | [] => simp at h
  | t :: rest =>
    have ht : t = "" := by simpa using h
    subst ht
    have hc : collectTexts ("" :: rest) = [] := by
      simp [collectTexts, List.takeWhile_cons, String.isEmpty]
    refine ⟨?_, ?_, ?_, ?_, ?_, ?_⟩ <;>
      simp [seedOps, scriptsSeedOps, seedMsg, scriptsSeedMsg, hc,
        perRecordCommitTrace, runOps]

/-- Witness for C9 at the one-line session whose first line is empty. -/
theorem c9_empty_input_noop_witness :
    ([""] : List String).head? = some "" ∧
    (seedOps (fun _ => []) [""] = [] ∧
      scriptsSeedOps (fun _ => []) [""] = [] ∧
      (runOps (seedOps (fun _ => []) [""]) ([("x", ([] : List ℝ))], [])).1 = [("x", [])] ∧
      (runOps (scriptsSeedOps (fun _ => []) [""]) ([("x", ([] : List ℝ))], [])).1 = [("x", [])] ∧
      seedMsg [""] = "No texts entered" ∧
      scriptsSeedMsg [""] = "No texts entered") :=
  ⟨rfl, c9_empty_input_noop (fun _ => []) [""] [("x", [])] rfl⟩

/-- Claim C3 (amended): the search SQL orders results by the distance key
only — of two returned records at different distances the strictly closer one
precedes, and any two admissible results of the same query against the same
store carry the identical sequence of distances; the ordering of records at
identical distance is not constrained (there is no id tie-break in the
ORDER BY). -/
theorem c3_tie_ordering (table : List Row) (q : List ℝ) (k : ℕ) (res₁ res₂ : List Row)
    (h₁ : IsQueryResult table q k res₁) (h₂ : IsQueryResult table q k res₂) :
    res₁.Pairwise (fun a b => distKey q a ≠ distKey q b → distKey q a < distKey q b) ∧
    res₁.map (distKey q) = res₂.map (distKey q) := by
  obtain ⟨perm₁, hp₁, hs₁, hr₁⟩ := h₁
  obtain ⟨perm₂, hp₂, hs₂, hr₂⟩ := h₂
  subst hr₁
  subst hr₂
  constructor
  · have hsort := hs₁.sublist (List.take_sublist k perm₁)
    exact hsort.imp fun hab hne => lt_of_le_of_ne hab hne
  · have hmp : (perm₁.map (distKey q)).Perm (perm₂.map (distKey q)) :=
      (hp₁.symm.trans hp₂).map (distKey q)
    have hms₁ : (perm₁.map (distKey q)).Sorted (· ≤ ·) := List.pairwise_map.mpr hs₁
    have hms₂ : (perm₂.map (distKey q)).Sorted (· ≤ ·) := List.pairwise_map.mpr hs₂
    have heq : perm₁.map (distKey q) = perm₂.map (distKey q) :=
      List.eq_of_perm_of_sorted hmp hms₁ hms₂
    rw [List.map_take, List.map_take, heq]

/-- Witness for C3 (amended) at a one-row store. -/
theorem c3_tie_ordering_witness :
    IsQueryResult [rowSolo] [1, 0] 5 [rowSolo] ∧
    (([rowSolo] : List Row).Pairwise
        (fun a b => distKey [1, 0] a ≠ distKey [1, 0] b → distKey [1, 0] a < distKey [1, 0] b) ∧
      ([rowSolo] : List Row).map (distKey [1, 0]) = [rowSolo].map (distKey [1, 0])) := by
  have hq : IsQueryResult [rowSolo] [1, 0] 5 [rowSolo] :=
    ⟨[rowSolo], List.Perm.refl _, List.sorted_singleton _, rfl⟩
  exact ⟨hq, c3_tie_ordering [rowSolo] [1, 0] 5 [rowSolo] [rowSolo] hq hq⟩

/-- Counterexample for C3 as stated: two records with identical embeddings —
hence at identical distance from the query — admit a result ordered by
descending id, and both orderings of the pair are admissible results of the
same unchanged store, so repeated identical queries are not guaranteed the
identical ordering. -/
theorem c3_tie_ordering_counterexample :
    IsQueryResult [rowTie1, rowTie2] [0, 1] 5 [rowTie2, rowTie1] ∧
    IsQueryResult [rowTie1, rowTie2] [0, 1] 5 [rowTie1, rowTie2] ∧
    distKey [0, 1] rowTie1 = distKey [0, 1] rowTie2 ∧
    ¬ ([rowTie2, rowTie1] : List Row).Pairwise (fun a b =>
        distKey [0, 1] a = distKey [0, 1] b → a.id < b.id) ∧
    ([rowTie2, rowTie1] : List Row) ≠ [rowTie1, rowTie2] := by
  have hd : distKey [0, 1] rowTie1 = distKey [0, 1] rowTie2 := rfl
  refine ⟨?_, ?_, hd, ?_, ?_⟩
  · exact ⟨[rowTie2, rowTie1], List.Perm.swap rowTie2 rowTie1 [],
      List.pairwise_cons.mpr ⟨by intro b hb; rw [List.mem_singleton.mp hb]; exact le_of_eq hd.symm,
        List.sorted_singleton _⟩, rfl⟩
  · exact ⟨[rowTie1, rowTie2], List.Perm.refl _,
      List.pairwise_cons.mpr ⟨by intro b hb; rw [List.mem_singleton.mp hb]; exact le_of_eq hd,
        List.sorted_singleton _⟩, rfl⟩
  · intro hpw
    have h21 := (List.pairwise_cons.mp hpw).1 rowTie1 (List.mem_singleton.mpr rfl) hd.symm
    simp [rowTie1, rowTie2] at h21
  · intro heq
    have hid : rowTie2.id = rowTie1.id := by rw [List.cons.injEq] at heq; rw [heq.1]
    simp [rowTie1, rowTie2] at hid

/-- Claim C5 (amended): for a record with a nonzero-norm embedding, querying
with that exact embedding and `k ≥ 1` finds it at cosine distance 0, and it
is ranked first whenever every other stored record is strictly farther from
the query (records tied at the same distance may be ranked ahead of it, since
the SQL has no tie-break). -/
theorem c5_exact_match (r : Row) (others table : List Row) (k : ℕ) (res : List Row)
    (hperm : table.Perm (r :: others))
    (hnorm : norm2 r.embedding ≠ 0)
    (hfar : ∀ s ∈ others, distKey r.embedding r < distKey r.embedding s)
    (hk : 1 ≤ k)
    (hres : IsQueryResult table r.embedding k res) :
    distKey r.embedding r = 0 ∧ res.head? = some r := by
  have hd0 : distKey r.embedding r = 0 := cosineDistance_self r.embedding hnorm
  refine ⟨hd0, ?_⟩
  obtain ⟨perm, hp, hs, hr⟩ := hres
  subst hr
  have hpp : perm.Perm (r :: others) := hp.symm.trans hperm
  match perm, hs with
  | [], _ =>
    have := hpp.length_eq
    simp at this
  | p :: ps, hs =>
    have hphead : p = r := by
      rcases List.mem_cons.mp (hpp.subset (List.mem_cons_self p ps)) with hpr | hpo
      · exact hpr
      · exfalso
        have h1 : distKey r.embedding r < distKey r.embedding p := hfar p hpo
        rcases List.mem_cons.mp (hpp.symm.subset (List.mem_cons_self r others)) with hrp | hrps
        · rw [← hrp] at h1
          exact lt_irrefl _ h1
        · have h2 : distKey r.embedding p ≤ distKey r.embedding r :=
            (List.sorted_cons.mp hs).1 r hrps
          exact lt_irrefl _ (lt_of_lt_of_le h1 h2)
    match k, hk with
    | k' + 1, _ =>
      rw [List.take_succ_cons, hphead]
      rfl

/-- Witness for C5 (amended) at a one-row store holding `rowCat`, queried
with `rowCat`'s own embedding. -/
theorem c5_exact_match_witness :
    ([rowCat] : List Row).Perm (rowCat :: []) ∧
    norm2 rowCat.embedding ≠ 0 ∧
    IsQueryResult [rowCat] rowCat.embedding 1 [rowCat] ∧
    (distKey rowCat.embedding rowCat = 0 ∧ ([rowCat] : List Row).head? = some rowCat) := by
  have hperm : ([rowCat] : List Row).Perm (rowCat :: []) := List.Perm.refl _
  have hd : dot rowCat.embedding rowCat.embedding = 1 := by
    show dot [1, 0, 0] [1, 0, 0] = 1
    simp [dot]
  have hn : norm2 rowCat.embedding ≠ 0 := by
    rw [norm2, hd, Real.sqrt_one]
    exact one_ne_zero
  have hq : IsQueryResult [rowCat] rowCat.embedding 1 [rowCat] :=
    ⟨[rowCat], List.Perm.refl _, List.sorted_singleton _, rfl⟩
  exact ⟨hperm, hn, hq,
    c5_exact_match rowCat [] [rowCat] 1 [rowCat] hperm hn (by simp) le_rfl hq⟩

/-- Counterexample for C5 as stated: `rowCat` is stored, queried with its
exact embedding and `k = 5 ≥ 1`, and no other record is strictly closer
(`rowCatDup` is at the identical distance) — yet an admissible result ranks
`rowCatDup` first, so the inserted record is not ranked first. -/
theorem c5_exact_match_counterexample :
    IsQueryResult [rowCat, rowCatDup] rowCat.embedding 5 [rowCatDup, rowCat] ∧
    (∀ s ∈ [rowCatDup], ¬ distKey rowCat.embedding s < distKey rowCat.embedding rowCat) ∧
    ([rowCatDup, rowCat] : List Row).head? ≠ some rowCat := by
  have hd : distKey rowCat.embedding rowCatDup = distKey rowCat.embedding rowCat := rfl
  refine ⟨?_, ?_, ?_⟩
  · exact ⟨[rowCatDup, rowCat], List.Perm.swap rowCatDup rowCat [],
      List.pairwise_cons.mpr ⟨by intro b hb; rw [List.mem_singleton.mp hb]; exact le_of_eq hd,
        List.sorted_singleton _⟩, rfl⟩
  · intro s hs
    rw [List.mem_singleton.mp hs, hd]
    exact lt_irrefl _
  · intro h
    have : rowCatDup = rowCat := by simpa using h
    simp [rowCat, rowCatDup] at this

/-- The ids handed out by a run of inserts form the consecutive range
starting at the store's next id, and the counter advances by exactly the
number of successes. -/
lemma runInserts_ids (D : ℕ) (batch : List (String × List ℝ)) :
    ∀ st : StoreState,
      (runInserts D st batch).2 =
        List.range' st.nextId (runInserts D st batch).2.length ∧
      (runInserts D st batch).1.nextId = st.nextId + (runInserts D st batch).2.length := by
  induction batch with
  | nil => intro st; simp [runInserts]
  | cons ce rest ih =>
    intro st
    obtain ⟨c, e⟩ := ce
    by_cases h : e.length = D
    · have hins : insertRec D st c e =
          (⟨st.nextId + 1, st.records ++ [(st.nextId, c, e)]⟩, some st.nextId) := by
        simp [insertRec, h]
      obtain ⟨ih1, ih2⟩ := ih ⟨st.nextId + 1, st.records ++ [(st.nextId, c, e)]⟩
      simp only [runInserts, hins]
      constructor
      · simp only [List.length_cons, List.range']
        rw [← ih1]
      · rw [ih2]
        simp only [List.length_cons]
        omega
    · have hins : insertRec D st c e = (st, none) := by
        simp [insertRec, h]
      simp only [runInserts, hins]
      exact ih st

/-- Claim C6: the ids of successfully inserted records are the consecutive
range starting at the store's next serial value — strictly increasing in
insertion order with no gaps — and a failed insert (dimension mismatch)
returns the state unchanged and consumes no id. -/
theorem c6_serial_ids (D : ℕ) (st : StoreState) (batch : List (String × List ℝ)) :
    (runInserts D st batch).2 =
      List.range' st.nextId (runInserts D st batch).2.length ∧
    ∀ (c : String) (e : List ℝ), e.length ≠ D → insertRec D st c e = (st, none) := by
  refine ⟨(runInserts_ids D batch st).1, ?_⟩
  intro c e he
  simp [insertRec, he]

/-- Witness for C6: with dimension 2, a three-attempt batch whose middle
embedding has the wrong length yields exactly the ids 1 and 2 and the failed
attempt leaves the state untouched. -/
theorem c6_serial_ids_witness :
    (([(3 : ℝ)] : List ℝ).length ≠ 2) ∧
    insertRec 2 ⟨1, []⟩ "b" [(3 : ℝ)] = (⟨1, []⟩, none) ∧
    (runInserts 2 ⟨1, []⟩ [("a", [1, 2]), ("b", [3]), ("c", [4, 5])]).2 = [1, 2] := by
  have hlen : (([(3 : ℝ)] : List ℝ).length ≠ 2) := by simp
  refine ⟨hlen, (c6_serial_ids 2 ⟨1, []⟩ []).2 "b" [3] hlen, ?_⟩
  simp [runInserts, insertRec]

/-- Reading an element-sized suffix back out of a snoc list of segments. -/
lemma getD_snoc (l : List (List ℚ)) (x : List ℚ) : (l ++ [x]).getD l.length [] = x := by
  simp [List.getD_append_right]

/-- Retrieval after allocation returns exactly the allocated vector content,
whether or not the allocation rolled to a fresh segment. -/
lemma retrieve_allocate (st : PlacementState) (v : List ℚ) :
    retrieve (allocate st v).1 (allocate st v).2 = v := by
  unfold allocate
  by_cases h : segmentCapacityBytes < serializedSize st.openSeg + serializedSize v
  · simp only [if_pos h]
    unfold retrieve segsOf
    simp only
    rw [show st.closedSegs.length + 1 = (st.closedSegs ++ [st.openSeg]).length by simp]
    rw [getD_snoc]
    simp
  · simp only [if_neg h]
    unfold retrieve segsOf
    simp only
    rw [getD_snoc]
    rw [List.drop_left]
    exact List.take_length _

/-- Placing and then fetching an embedding is the identity, in both the
inline and the overflow placement. -/
lemma fetch_place (thresholdBytes : ℕ) (st : PlacementState) (v : List ℚ) :
    fetchEmbedding (placeEmbedding thresholdBytes st v).1
      (placeEmbedding thresholdBytes st v).2 = v := by
  unfold placeEmbedding
  cases hc : classify thresholdBytes v with
  | inlineRow => simp [fetchEmbedding]
  | overflow =>
    simp only [fetchEmbedding]
    exact retrieve_allocate st v

/-- Claim C7: placement classification is a deterministic function of the
serialized byte size against the threshold — under a 2048-byte threshold a
384-dim float32 embedding (1536 bytes) classifies Inline and a 1024-dim one
(4096 bytes) classifies Overflow — and fetching a placed embedding returns
content identical to what was stored, in both placements. -/
theorem c7_placement_threshold (e₁ e₂ : List ℚ) (st₁ st₂ : PlacementState)
    (h₁ : e₁.length = 384) (h₂ : e₂.length = 1024) :
    serializedSize e₁ = 1536 ∧ classify 2048 e₁ = .inlineRow ∧
    serializedSize e₂ = 4096 ∧ classify 2048 e₂ = .overflow ∧
    fetchEmbedding (placeEmbedding 2048 st₁ e₁).1 (placeEmbedding 2048 st₁ e₁).2 = e₁ ∧
    fetchEmbedding (placeEmbedding 2048 st₂ e₂).1 (placeEmbedding 2048 st₂ e₂).2 = e₂ := by
  have hs₁ : serializedSize e₁ = 1536 := by
    unfold serializedSize elementWidth
    rw [h₁]
  have hs₂ : serializedSize e₂ = 4096 := by
    unfold serializedSize elementWidth
    rw [h₂]
  refine ⟨hs₁, ?_, hs₂, ?_, fetch_place 2048 st₁ e₁, fetch_place 2048 st₂ e₂⟩
  · unfold classify
    rw [hs₁]
    norm_num
  · unfold classify
    rw [hs₂]
    norm_num

/-- Witness for C7 at all-zero embeddings of dimension 384 and 1024 over an
empty placement state. -/
theorem c7_placement_threshold_witness :
    (List.replicate 384 (0 : ℚ)).length = 384 ∧
    (List.replicate 1024 (0 : ℚ)).length = 1024 ∧
    classify 2048 (List.replicate 384 (0 : ℚ)) = .inlineRow ∧
    classify 2048 (List.replicate 1024 (0 : ℚ)) = .overflow := by
  have h₁ : (List.replicate 384 (0 : ℚ)).length = 384 := List.length_replicate 384 0
  have h₂ : (List.replicate 1024 (0 : ℚ)).length = 1024 := List.length_replicate 1024 0
  have h := c7_placement_threshold (List.replicate 384 0) (List.replicate 1024 0)
    ⟨[], []⟩ ⟨[], []⟩ h₁ h₂
  exact ⟨h₁, h₂, h.2.1, h.2.2.2.1⟩

/-- Claim C8: for vectors of equal dimension, when either has zero norm the
cosine score is the designated maximum distance — the division of the cosine
formula is never evaluated there — and when both norms are nonzero the
denominator of the evaluated division is provably nonzero. -/
theorem c8_zero_norm_guard (a b : List ℝ) (_hlen : a.length = b.length) :
    ((norm2 a = 0 ∨ norm2 b = 0) → score .cosine a b = maxDistance) ∧
    (¬ (norm2 a = 0 ∨ norm2 b = 0) →
      norm2 a * norm2 b ≠ 0 ∧
      score .cosine a b = 1 - dot a b / (norm2 a * norm2 b)) := by
  constructor
  · intro h
    simp only [score, if_pos h]
  · intro h
    push_neg at h
    refine ⟨mul_ne_zero h.1 h.2, ?_⟩
    have h' : ¬ (norm2 a = 0 ∨ norm2 b = 0) := by
      intro hc
      rcases hc with hc | hc
      · exact h.1 hc
      · exact h.2 hc
    simp only [score, if_neg h']
    unfold cosineDistance cosine_similarity
    rfl

/-- Witness for C8 at the zero vector `[0, 0]` against `[1, 2]`: the guard
fires and the score is the maximum distance. -/
theorem c8_zero_norm_guard_witness :
    ([(0 : ℝ), 0] : List ℝ).length = [(1 : ℝ), 2].length ∧
    norm2 [(0 : ℝ), 0] = 0 ∧
    score .cosine [(0 : ℝ), 0] [1, 2] = maxDistance := by
  have hlen : ([(0 : ℝ), 0] : List ℝ).length = [(1 : ℝ), 2].length := rfl
  have h0 : norm2 [(0 : ℝ), 0] = 0 := by
    have hd : dot [(0 : ℝ), 0] [0, 0] = 0 := by simp [dot]
    rw [norm2, hd, Real.sqrt_zero]
  exact ⟨hlen, h0, (c8_zero_norm_guard _ _ hlen).1 (Or.inl h0)⟩

end PgvectorDemo
